import Mathlib

open scoped List

/-!
Verification of the retrieval-augmented-generation core of the FE-524
homework repository: text chunking (`semantic_chunk`), embedding batching
(`compute_embeddings` / `embed`), the persisted knowledge base
(`save_knowledge_base` / `load_knowledge_base`), similarity retrieval
(`dot_product` / `retrieve_relevant_chunks`) and prompt assembly
(`create_augmented_prompt`), shallowly embedded from `hw6_asingh101.py`
and `asingh101_hw7.py`.

Modelling conventions: Python strings are `List Char`; Python floats are `ℚ`
(the similarity and sorting logic is arithmetic-generic); the JSON artifact is
a structure; a raised exception is the `Except.error` branch; the embedding
service is a function parameter.
-/

/-- Configuration constant `CHUNK_SIZE = 800` (characters). -/
def CHUNK_SIZE : Nat := 800

/-- Configuration constant `OVERLAP = 200` (characters). -/
def OVERLAP : Nat := 200

/-- Configuration constant `TOP_K = 5`. -/
def TOP_K : Nat := 5

/-- Configuration constant `EMBEDDING_MODEL = "text-embedding-3-small"`. -/
def EMBEDDING_MODEL : List Char := "text-embedding-3-small".toList

/-- The whitespace characters recognised by Python `str.strip()` (ASCII part;
all whitespace appearing in this development is the space character). -/
def pyIsSpace (c : Char) : Bool :=
  c = ' ' || c = '\t' || c = '\n' || c = '\r' || c = '\x0b' || c = '\x0c'

/-- `len(chunk.strip()) > 0`: a slice survives the filter inside
`semantic_chunk` iff it has at least one non-whitespace character. -/
def keepSlice (s : List Char) : Bool :=
  s.any (fun c => ! pyIsSpace c)

/-- Python `range(0, len, stride)` for a positive `stride`:
`[0, stride, 2*stride, ...]`, every multiple of `stride` below `len`. -/
def chunkOffsets (len stride : Nat) : List Nat :=
  (List.range ((len + stride - 1) / stride)).map (fun j => j * stride)

/-- The Python runtime error raised by `range` when the step is zero:
`ValueError: range() arg 3 must not be zero`. -/
inductive PyErr where
  | valueError
  deriving DecidableEq

/-- Python `range(0, len, step)` with an `int` step: step `0` raises
`ValueError`; a negative step yields the empty range (counting up from `0`). -/
def pyRange (len : Nat) (step : Int) : Except PyErr (List Nat) :=
  if step = 0 then .error .valueError
  else if step < 0 then .ok []
  else .ok (chunkOffsets len step.toNat)

/-- `semantic_chunk` from `hw6_asingh101.py` / `asingh101_hw7.py` (the two
copies are identical), instrumented to keep each retained chunk's starting
offset next to its text: `stride = chunk_size - overlap`; for
`i in range(0, len(text), stride)` slice `text[i:i + chunk_size]` and keep it
iff its stripped content is non-empty. -/
def semanticChunkPairs (text : List Char) (chunk_size overlap : Nat) :
    Except PyErr (List (Nat × List Char)) :=
  (pyRange text.length ((chunk_size : Int) - (overlap : Int))).map
    (fun offs =>
      (offs.map (fun i => (i, (text.drop i).take chunk_size))).filter
        (fun p => keepSlice p.2))

/-- `semantic_chunk` as the source returns it: the list of chunk texts. -/
def semantic_chunk (text : List Char) (chunk_size overlap : Nat) :
    Except PyErr (List (List Char)) :=
  (semanticChunkPairs text chunk_size overlap).map (fun l => l.map Prod.snd)

/-- Decidable statement of the C1 claim at one input: every retained chunk but
the last has text of length exactly `chunk_size`, and consecutive retained
starting offsets differ by exactly `chunk_size - overlap`. -/
def chunkClaimHolds (text : List Char) (chunk_size overlap : Nat) : Bool :=
  match semanticChunkPairs text chunk_size overlap with
  | .error _ => false
  | .ok l =>
      (l.dropLast.all (fun p => p.2.length == chunk_size)) &&
      ((l.zip l.tail).all (fun q => q.2.1 == q.1.1 + (chunk_size - overlap)))

/-- `dot_product` from `asingh101_hw7.py`:
`sum(a * b for a, b in zip(v1, v2))`. Python `zip` truncates to the shorter
argument, and so does `List.zip`. -/
def dot_product (v1 v2 : List ℚ) : ℚ :=
  ((v1.zip v2).map (fun p => p.1 * p.2)).sum

/-- The comparator realised by Python
`indexed_similarities.sort(key=lambda x: x[1], reverse=True)` on
`(index, similarity)` pairs: a stable sort placing larger similarities first. -/
def simGE (a b : Nat × ℚ) : Bool :=
  decide (b.2 ≤ a.2)

/-- `retrieve_relevant_chunks` from `asingh101_hw7.py`, returning
`(retrieved_chunks, topk_indices)`. Python `list.sort` is a stable sort and is
embedded with the stable `List.mergeSort`. -/
def retrieve_relevant_chunks (query_embedding : List ℚ)
    (chunk_embeddings : List (List ℚ)) (chunks : List (List Char)) (k : Nat) :
    List (List Char × ℚ) × List Nat :=
  let similarities := chunk_embeddings.map (fun e => dot_product query_embedding e)
  let indexed_similarities := similarities.enum
  let sorted := indexed_similarities.mergeSort simGE
  let topk_indices := (sorted.take k).map Prod.fst
  let retrieved_chunks :=
    topk_indices.map (fun i => (chunks.getD i [], similarities.getD i 0))
  (retrieved_chunks, topk_indices)

/-- The `metadata` object written by `save_knowledge_base`. -/
structure KBMetadata where
  chunk_size : Nat
  overlap : Nat
  embedding_model : List Char
  num_chunks : Nat
  deriving DecidableEq

/-- The persisted knowledge-base artifact: `chunks`, `embeddings`,
`metadata`. -/
structure KBData where
  chunks : List (List Char)
  embeddings : List (List ℚ)
  metadata : KBMetadata
  deriving DecidableEq

/-- `save_knowledge_base` from `asingh101_hw7.py` (the `hw6_asingh101.py` copy
differs only in taking the filename as a parameter): the artifact value written
to `KNOWLEDGE_BASE_FILE`; the filesystem write is modelled as producing this
value at the path. -/
def save_knowledge_base (chunks : List (List Char))
    (embeddings : List (List ℚ)) : KBData :=
  { chunks := chunks
    embeddings := embeddings
    metadata :=
      { chunk_size := CHUNK_SIZE
        overlap := OVERLAP
        embedding_model := EMBEDDING_MODEL
        num_chunks := chunks.length } }

/-- The runtime error raised by Python `open(path, 'r')` on a missing file. -/
inductive LoadErr where
  | fileNotFoundError
  deriving DecidableEq

/-- `load_knowledge_base` from `asingh101_hw7.py`: `open` raises
`FileNotFoundError` when the artifact is absent; otherwise the function returns
`data["chunks"], data["embeddings"]` with no structural validation of any
kind. The filesystem content at `KNOWLEDGE_BASE_FILE` is modelled as
`Option KBData` (`none` = file absent). -/
def load_knowledge_base (file : Option KBData) :
    Except LoadErr (List (List Char) × List (List ℚ)) :=
  match file with
  | none => .error .fileNotFoundError
  | some data => .ok (data.chunks, data.embeddings)

/-- One f-string block of `create_augmented_prompt`:
`"\n<retrieved_knowledge id=\"document-{i}\">\n{chunks[idx]}\n</retrieved_knowledge>\n"`.
Python renders the integer `i` in decimal, as `Nat.toDigits 10` does. -/
def knowledgeBlock (i : Nat) (chunkText : List Char) : List Char :=
  "\n<retrieved_knowledge id=\"document-".toList ++ Nat.toDigits 10 i ++
    "\">\n".toList ++ chunkText ++ "\n</retrieved_knowledge>\n".toList

/-- `create_augmented_prompt` from `asingh101_hw7.py`. The `query` and
`retrieved_chunks` parameters are accepted but never read by the body: the
context blocks come from `topk_indices` and `chunks` alone, are joined with
`"\n"`, and the result is the header line, the joined blocks, and a final
newline. -/
def create_augmented_prompt (query : List Char)
    (retrieved_chunks : List (List Char × ℚ)) (topk_indices : List Nat)
    (chunks : List (List Char)) : List Char :=
  let context :=
    topk_indices.enum.map (fun p => knowledgeBlock p.1 (chunks.getD p.2 []))
  "Use the following to answer questions.\n".toList ++
    List.intercalate "\n".toList context ++ "\n".toList

/-- `embed` from `hw6_asingh101.py` / `asingh101_hw7.py`: embeds a single
string via the collaborator and takes `resp.data[0].embedding`. The
collaborator call `client.embeddings.create(model=EMBEDDING_MODEL, input=...)`
is modelled as a function parameter `embed_batch` (the model identifier is the
fixed constant `EMBEDDING_MODEL` throughout the source). -/
def embed (embed_batch : List (List Char) → List (List ℚ))
    (text : List Char) : List ℚ :=
  (embed_batch [text]).getD 0 []

/-- `compute_embeddings` from `hw6_asingh101.py` / `asingh101_hw7.py`: submits
`chunks` in consecutive batches `chunks[i:i + 100]` for
`i in range(0, len(chunks), 100)` and extends the result list in order. -/
def compute_embeddings (embed_batch : List (List Char) → List (List ℚ))
    (chunks : List (List Char)) : List (List ℚ) :=
  ((chunkOffsets chunks.length 100).map
      (fun i => embed_batch ((chunks.drop i).take 100))).flatten

/-- The retained `(offset, chunk)` pairs of a valid chunking run, as a plain
list (what `semanticChunkPairs` returns when the stride is positive). -/
def retainedPairs (text : List Char) (chunk_size overlap : Nat) :
    List (Nat × List Char) :=
  ((chunkOffsets text.length (chunk_size - overlap)).map
      (fun i => (i, (text.drop i).take chunk_size))).filter
    (fun p => keepSlice p.2)

theorem semanticChunkPairs_ok (text : List Char) (chunk_size overlap : Nat)
    (hov : overlap < chunk_size) :
    semanticChunkPairs text chunk_size overlap =
      .ok (retainedPairs text chunk_size overlap) := by
  unfold semanticChunkPairs pyRange retainedPairs
  have h0 : ¬ ((chunk_size : Int) - (overlap : Int) = 0) := by omega
  have h1 : ¬ ((chunk_size : Int) - (overlap : Int) < 0) := by omega
  have h2 : ((chunk_size : Int) - (overlap : Int)).toNat = chunk_size - overlap := by
    omega
  simp [h0, h1, h2, Except.map]

theorem lt_ceilDiv_iff {len s : Nat} (hs : 0 < s) (j : Nat) :
    j < (len + s - 1) / s ↔ j * s < len := by
  rw [Nat.lt_iff_add_one_le, Nat.le_div_iff_mul_le hs, Nat.add_mul]
  omega

theorem mem_chunkOffsets {len s i : Nat} (hs : 0 < s) :
    i ∈ chunkOffsets len s ↔ (∃ j, i = j * s) ∧ i < len := by
  unfold chunkOffsets
  simp only [List.mem_map, List.mem_range]
  constructor
  · rintro ⟨j, hj, rfl⟩
    exact ⟨⟨j, rfl⟩, (lt_ceilDiv_iff hs j).mp hj⟩
  · rintro ⟨⟨j, rfl⟩, hlt⟩
    exact ⟨j, (lt_ceilDiv_iff hs j).mpr hlt, rfl⟩

theorem chunkOffsets_pairwise (len s : Nat) :
    (chunkOffsets len s).Pairwise (fun a b => ∃ m, 0 < m ∧ b = a + m * s) := by
  unfold chunkOffsets
  rw [List.pairwise_map]
  refine (List.pairwise_lt_range _).imp ?_
  intro j₁ j₂ h
  refine ⟨j₂ - j₁, by omega, ?_⟩
  rw [Nat.sub_mul]
  have hle : j₁ * s ≤ j₂ * s := Nat.mul_le_mul_right s (Nat.le_of_lt h)
  omega

theorem mem_retainedPairs {text : List Char} {chunk_size overlap : Nat}
    (hov : overlap < chunk_size) {p : Nat × List Char}
    (h : p ∈ retainedPairs text chunk_size overlap) :
    (∃ j, p.1 = j * (chunk_size - overlap)) ∧ p.1 < text.length ∧
      p.2 = (text.drop p.1).take chunk_size ∧ keepSlice p.2 = true := by
  unfold retainedPairs at h
  rw [List.mem_filter] at h
  obtain ⟨hm, hkeep⟩ := h
  rw [List.mem_map] at hm
  obtain ⟨i, hi, rfl⟩ := hm
  obtain ⟨⟨j, rfl⟩, hlen⟩ := (mem_chunkOffsets (by omega)).mp hi
  exact ⟨⟨j, rfl⟩, hlen, rfl, hkeep⟩

/-- C1 counterexample input: `"ab    cde"` chunked with `chunk_size = 4`,
`overlap = 2` (stride 2). The slice at offset 2 is all spaces and is dropped,
so consecutive retained offsets jump from 0 to 4; the retained chunks at
offsets 6 and 8 are shorter than 4 yet not last. -/
def cexText : List Char := "ab    cde".toList

/-- C1: the claim fails on the code: for `chunk_size = 4`, `overlap = 2` (a
valid configuration) on `"ab    cde"`, the retained output is
`[(0, "ab  "), (4, "  cd"), (6, "cde"), (8, "e")]`: the chunk at offset 6 has
length 3 yet is not last, and the first two retained offsets differ by 4, not
by `chunk_size - overlap = 2`. -/
theorem C1_counterexample :
    (0 < 4 ∧ 2 < 4) ∧
      semanticChunkPairs cexText 4 2 =
        .ok [(0, "ab  ".toList), (4, "  cd".toList), (6, "cde".toList),
          (8, "e".toList)] ∧
      chunkClaimHolds cexText 4 2 = false :=
  ⟨by omega, rfl, by decide⟩

/-- C1 (amended): for a valid configuration, every retained chunk's text has
length `min chunk_size (len(text) - offset)` (so exactly `chunk_size` whenever
the slice fits inside the text, but several trailing chunks may be shorter),
and consecutive retained offsets differ by a positive multiple of
`chunk_size - overlap` (exactly one stride unless whitespace-only slices in
between were dropped). -/
theorem C1_chunk_length_stride_amended (text : List Char)
    (chunk_size overlap : Nat) (hov : overlap < chunk_size) :
    ∃ l, semanticChunkPairs text chunk_size overlap = .ok l ∧
      (∀ p ∈ l, p.2.length = min chunk_size (text.length - p.1)) ∧
      (∀ p ∈ l, p.1 + chunk_size ≤ text.length → p.2.length = chunk_size) ∧
      l.Pairwise (fun p q => ∃ m, 0 < m ∧ q.1 = p.1 + m * (chunk_size - overlap)) := by
  refine ⟨retainedPairs text chunk_size overlap,
    semanticChunkPairs_ok text chunk_size overlap hov, ?_, ?_, ?_⟩
  · intro p hp
    obtain ⟨-, hlt, hslice, -⟩ := mem_retainedPairs hov hp
    rw [hslice, List.length_take, List.length_drop]
  · intro p hp hfit
    obtain ⟨-, hlt, hslice, -⟩ := mem_retainedPairs hov hp
    rw [hslice, List.length_take, List.length_drop]
    omega
  · exact List.Pairwise.filter _
      ((List.pairwise_map).mpr (chunkOffsets_pairwise _ _))

/-- C1 amended, instantiated at `"ab    cde"`, `chunk_size = 4`,
`overlap = 2`. -/
theorem C1_chunk_length_stride_amended_witness :
    2 < 4 ∧
      ∃ l, semanticChunkPairs cexText 4 2 = .ok l ∧
        (∀ p ∈ l, p.2.length = min 4 (cexText.length - p.1)) ∧
        (∀ p ∈ l, p.1 + 4 ≤ cexText.length → p.2.length = 4) ∧
        l.Pairwise (fun p q => ∃ m, 0 < m ∧ q.1 = p.1 + m * (4 - 2)) :=
  ⟨by omega, C1_chunk_length_stride_amended cexText 4 2 (by omega)⟩

/-- C2: the claim fails on the code: there is no `ConfigurationError` anywhere
in the source. With `chunk_size = 1`, `overlap = 2` (so `overlap > chunk_size`,
stride `-1`), `semantic_chunk("abc")` silently returns the empty list instead
of raising. -/
theorem C2_counterexample : semantic_chunk "abc".toList 1 2 = .ok [] := rfl

/-- C2 (amended): with `overlap = chunk_size` the stride is zero and
`range(0, len, 0)` raises `ValueError` (not a `ConfigurationError`, which does
not exist in the code) before any chunking work; with `overlap > chunk_size`
the stride is negative, the range is empty, and `semantic_chunk` silently
returns the empty list. -/
theorem C2_overlap_ge_chunk_size (text : List Char) (chunk_size overlap : Nat)
    (h : chunk_size ≤ overlap) :
    (overlap = chunk_size →
      semantic_chunk text chunk_size overlap = .error .valueError) ∧
    (chunk_size < overlap → semantic_chunk text chunk_size overlap = .ok []) := by
  constructor
  · intro he
    have h0 : (chunk_size : Int) - (overlap : Int) = 0 := by omega
    simp [semantic_chunk, semanticChunkPairs, pyRange, h0, Except.map]
  · intro hlt
    have h0 : ¬ ((chunk_size : Int) - (overlap : Int) = 0) := by omega
    have h1 : (chunk_size : Int) - (overlap : Int) < 0 := by omega
    simp [semantic_chunk, semanticChunkPairs, pyRange, h0, h1, Except.map]

/-- C2 amended, instantiated: `overlap = chunk_size = 2` raises `ValueError`
on `"ab"`. -/
theorem C2_overlap_ge_chunk_size_witness :
    semantic_chunk "ab".toList 2 2 = .error .valueError :=
  (C2_overlap_ge_chunk_size "ab".toList 2 2 (by omega)).1 rfl

/-- C9: every retained chunk is the slice `text[offset : offset + chunk_size]`
at an offset that is a multiple of the stride, offsets strictly increase across
the output, every retained chunk has non-empty stripped content, and
re-chunking is deterministic. -/
theorem C9_chunks_slices_ordered (text : List Char) (chunk_size overlap : Nat)
    (hov : overlap < chunk_size) :
    ∃ pl, semanticChunkPairs text chunk_size overlap = .ok pl ∧
      semantic_chunk text chunk_size overlap = .ok (pl.map Prod.snd) ∧
      (∀ p ∈ pl, ∃ j, p.1 = j * (chunk_size - overlap) ∧
        p.2 = (text.drop p.1).take chunk_size ∧ keepSlice p.2 = true) ∧
      pl.Pairwise (fun p q => p.1 < q.1) ∧
      semantic_chunk text chunk_size overlap =
        semantic_chunk text chunk_size overlap := by
  refine ⟨retainedPairs text chunk_size overlap,
    semanticChunkPairs_ok text chunk_size overlap hov, ?_, ?_, ?_, rfl⟩
  · unfold semantic_chunk
    rw [semanticChunkPairs_ok text chunk_size overlap hov]
    rfl
  · intro p hp
    obtain ⟨⟨j, hj⟩, -, hslice, hkeep⟩ := mem_retainedPairs hov hp
    exact ⟨j, hj, hslice, hkeep⟩
  · have hS : (retainedPairs text chunk_size overlap).Pairwise
        (fun p q => ∃ m, 0 < m ∧ q.1 = p.1 + m * (chunk_size - overlap)) :=
      List.Pairwise.filter _
        ((List.pairwise_map).mpr (chunkOffsets_pairwise _ _))
    refine hS.imp ?_
    rintro p q ⟨m, hm, hq⟩
    have hpos : 0 < m * (chunk_size - overlap) :=
      Nat.mul_pos hm (by omega)
    omega

/-- C9, instantiated at `"ab    cde"`, `chunk_size = 4`, `overlap = 2`. -/
theorem C9_chunks_slices_ordered_witness :
    2 < 4 ∧
      ∃ pl, semanticChunkPairs cexText 4 2 = .ok pl ∧
        semantic_chunk cexText 4 2 = .ok (pl.map Prod.snd) ∧
        (∀ p ∈ pl, ∃ j, p.1 = j * (4 - 2) ∧
          p.2 = (cexText.drop p.1).take 4 ∧ keepSlice p.2 = true) ∧
        pl.Pairwise (fun p q => p.1 < q.1) ∧
        semantic_chunk cexText 4 2 = semantic_chunk cexText 4 2 :=
  ⟨by omega, C9_chunks_slices_ordered cexText 4 2 (by omega)⟩

/-- C4 counterexample store: one chunk but zero embeddings. -/
def mismatchedStore : KBData :=
  { chunks := ["ab".toList]
    embeddings := []
    metadata :=
      { chunk_size := CHUNK_SIZE
        overlap := OVERLAP
        embedding_model := EMBEDDING_MODEL
        num_chunks := 1 } }

/-- C4: the claim fails on the code: `load_knowledge_base` performs no
structural validation, so a store with `len(chunks) = 1 ≠ 0 = len(embeddings)`
loads successfully instead of raising `CorruptStoreError` (no such error
exists in the source). -/
theorem C4_counterexample :
    mismatchedStore.chunks.length = 1 ∧ mismatchedStore.embeddings.length = 0 ∧
      load_knowledge_base (some mismatchedStore) =
        .ok (["ab".toList], []) :=
  ⟨rfl, rfl, rfl⟩

/-- C4 (amended): when the artifact is absent, `open` raises
`FileNotFoundError` (the code's counterpart of `NotFoundError`); when it is
present, `load_knowledge_base` returns its `chunks` and `embeddings` fields
unconditionally, with no structural validation at all — in particular a store
with `len(chunks) != len(embeddings)` loads without error. -/
theorem C4_load_no_validation (file : Option KBData) :
    (file = none →
      load_knowledge_base file = .error .fileNotFoundError) ∧
    (∀ d, file = some d →
      load_knowledge_base file = .ok (d.chunks, d.embeddings)) := by
  constructor
  · rintro rfl
    rfl
  · rintro d rfl
    rfl

/-- C4 amended, instantiated at the absent-file case. -/
theorem C4_load_no_validation_witness :
    load_knowledge_base none = .error .fileNotFoundError :=
  (C4_load_no_validation none).1 rfl

/-- C5: the save/load round trip returns the original chunks and embeddings,
and the persisted metadata records `num_chunks = len(chunks)`. -/
theorem C5_save_load_round_trip (chunks : List (List Char))
    (embeddings : List (List ℚ)) :
    load_knowledge_base (some (save_knowledge_base chunks embeddings)) =
        .ok (chunks, embeddings) ∧
      (save_knowledge_base chunks embeddings).metadata.num_chunks =
        chunks.length :=
  ⟨rfl, rfl⟩

/-- C10: the prompt assembler's output is determined solely by `topk_indices`
and `chunks`: the `query` and `retrieved_chunks` arguments never influence the
returned string. -/
theorem C10_prompt_ignores_query_and_retrieved (q₁ q₂ : List Char)
    (r₁ r₂ : List (List Char × ℚ)) (topk_indices : List Nat)
    (chunks : List (List Char)) :
    create_augmented_prompt q₁ r₁ topk_indices chunks =
      create_augmented_prompt q₂ r₂ topk_indices chunks :=
  rfl

/-- C7: the claim fails on the code: the assembled prompt is the header plus
the tagged blocks only — the original query is never appended. Here the query
is `"Q"` and the character `Q` does not occur anywhere in the output. -/
theorem C7_counterexample :
    create_augmented_prompt "Q".toList [("a".toList, 1)] [0] ["a".toList] =
        ("Use the following to answer questions.\n\n<retrieved_knowledge id=\"document-0\">\na\n</retrieved_knowledge>\n\n").toList ∧
      ('Q' ∉ create_augmented_prompt "Q".toList [("a".toList, 1)] [0]
        ["a".toList]) :=
  ⟨rfl, by decide⟩

/-- C7 (amended): the assembled prompt is the header line followed by one
delimited `<retrieved_knowledge>` block per retrieved index, tagged with the
sequential presentation position (`document-0`, `document-1`, ... — not the
original chunk index), containing the chunk texts in exactly the order the
retriever produced, joined by newlines; the original query is *not* appended
(it is sent separately as the user message), and the function is pure. -/
theorem C7_prompt_structure (query : List Char)
    (retrieved_chunks : List (List Char × ℚ)) (topk_indices : List Nat)
    (chunks : List (List Char)) :
    create_augmented_prompt query retrieved_chunks topk_indices chunks =
      "Use the following to answer questions.\n".toList ++
        List.intercalate "\n".toList
          ((List.range topk_indices.length).map
            (fun i => knowledgeBlock i (chunks.getD (topk_indices.getD i 0) []))) ++
        "\n".toList := by
  have hmap :
      topk_indices.enum.map (fun p => knowledgeBlock p.1 (chunks.getD p.2 [])) =
        (List.range topk_indices.length).map
          (fun i => knowledgeBlock i (chunks.getD (topk_indices.getD i 0) [])) := by
    apply List.ext_getElem
    · simp
    · intro i h₁ h₂
      simp only [List.length_map] at h₁
      simp only [List.enum_length] at h₁
      simp [List.getElem_enum, List.getElem?_eq_getElem h₁]
  simp only [create_augmented_prompt]
  rw [hmap]

theorem chunkOffsets_nil {s : Nat} (hs : 0 < s) : chunkOffsets 0 s = [] := by
  unfold chunkOffsets
  rw [Nat.div_eq_of_lt (by omega)]
  rfl

theorem chunkOffsets_cons {len s : Nat} (hs : 0 < s) (hlen : 0 < len) :
    chunkOffsets len s =
      0 :: (chunkOffsets (len - s) s).map (fun i => i + s) := by
  have hn : (len + s - 1) / s = (len - s + s - 1) / s + 1 := by
    rcases Nat.le_total len s with hle | hle
    · have h1 : len - s = 0 := by omega
      rw [h1]
      have h2 : (0 + s - 1) / s = 0 := Nat.div_eq_of_lt (by omega)
      have h3 : (len + s - 1) / s = 1 := by
        apply Nat.div_eq_of_lt_le <;> omega
      rw [h2, h3]
    · have h4 : len + s - 1 = (len - s + s - 1) + s := by omega
      rw [h4, Nat.add_div_right _ hs]
  unfold chunkOffsets
  rw [hn, List.range_succ_eq_map]
  simp only [List.map_cons, Nat.zero_mul, List.map_map]
  congr 1
  apply List.map_congr_left
  intro j hj
  simp [Nat.succ_mul]

theorem flatten_batches {α : Type} {s : Nat} (hs : 0 < s) :
    ∀ (n : Nat), ∀ l : List α, l.length = n →
      ((chunkOffsets l.length s).map (fun i => (l.drop i).take s)).flatten = l := by
  intro n
  induction n using Nat.strong_induction_on with
  | _ n ih =>
    intro l hl
    cases l with
    | nil => simp [chunkOffsets_nil hs]
    | cons x t =>
      simp only [List.length_cons] at hl
      rw [chunkOffsets_cons hs (by simp)]
      simp only [List.map_cons, List.drop_zero, List.map_map,
        List.flatten_cons]
      have hdl : ((x :: t).drop s).length = (x :: t).length - s := by
        simp
      have hrec := ih ((x :: t).drop s).length
        (by simp only [List.length_drop, List.length_cons]; omega)
        ((x :: t).drop s) rfl
      rw [hdl] at hrec
      have hfun :
          ((chunkOffsets ((x :: t).length - s) s).map
            ((fun i => ((x :: t).drop i).take s) ∘ (fun i => i + s))) =
          ((chunkOffsets ((x :: t).length - s) s).map
            (fun i => (((x :: t).drop s).drop i).take s)) := by
        apply List.map_congr_left
        intro i hi
        simp only [Function.comp_apply, List.drop_drop]
        rw [Nat.add_comm]
      rw [hfun, hrec]
      exact List.take_append_drop s (x :: t)

/-- C8: with a pure, order-preserving embedding collaborator (one vector per
input text, a function of the text alone, the model being the fixed constant
`EMBEDDING_MODEL`), batching into consecutive groups of at most 100 has no
effect: `compute_embeddings` returns exactly the per-chunk embeddings of
`embed`, one per chunk, in the original chunk order. -/
theorem C8_batched_embeddings (embed_batch : List (List Char) → List (List ℚ))
    (f : List Char → List ℚ) (hpure : ∀ batch, embed_batch batch = batch.map f)
    (chunks : List (List Char)) :
    compute_embeddings embed_batch chunks = chunks.map (embed embed_batch) ∧
      (compute_embeddings embed_batch chunks).length = chunks.length := by
  have hone : ∀ c, embed embed_batch c = f c := by
    intro c
    unfold embed
    rw [hpure]
    rfl
  have h1 : compute_embeddings embed_batch chunks = chunks.map f := by
    unfold compute_embeddings
    calc ((chunkOffsets chunks.length 100).map
            (fun i => embed_batch ((chunks.drop i).take 100))).flatten
        = ((chunkOffsets chunks.length 100).map
            (fun i => ((chunks.drop i).take 100).map f)).flatten := by
          congr 1
          apply List.map_congr_left
          intro i hi
          rw [hpure]
      _ = (((chunkOffsets chunks.length 100).map
            (fun i => (chunks.drop i).take 100)).map (List.map f)).flatten := by
          rw [List.map_map]
          rfl
      _ = (((chunkOffsets chunks.length 100).map
            (fun i => (chunks.drop i).take 100)).flatten).map f := by
          rw [List.map_flatten]
      _ = chunks.map f := by
          rw [flatten_batches (by norm_num) chunks.length chunks rfl]
  refine ⟨?_, by rw [h1, List.length_map]⟩
  rw [h1]
  apply List.map_congr_left
  intro c hc
  exact (hone c).symm

/-- A deterministic stand-in collaborator for the C8 witness: embeds a text as
the one-element vector holding its length. -/
def testEmbedBatch (batch : List (List Char)) : List (List ℚ) :=
  batch.map (fun t => [(t.length : ℚ)])

/-- C8, instantiated at the stand-in collaborator on two concrete chunks. -/
theorem C8_batched_embeddings_witness :
    compute_embeddings testEmbedBatch ["ab".toList, "c".toList] =
        ["ab".toList, "c".toList].map (embed testEmbedBatch) ∧
      (compute_embeddings testEmbedBatch ["ab".toList, "c".toList]).length =
        ["ab".toList, "c".toList].length :=
  C8_batched_embeddings testEmbedBatch (fun t => [(t.length : ℚ)])
    (fun _ => rfl) ["ab".toList, "c".toList]

theorem simGE_trans : ∀ a b c : Nat × ℚ, simGE a b → simGE b c → simGE a c := by
  intro a b c hab hbc
  simp only [simGE, decide_eq_true_eq] at hab hbc ⊢
  exact le_trans hbc hab

theorem simGE_total : ∀ a b : Nat × ℚ, simGE a b || simGE b a := by
  intro a b
  simp only [simGE]
  rcases le_total a.2 b.2 with h | h <;> simp [h]

theorem getD_of_lt {α : Type} (l : List α) (d : α) {n : Nat}
    (h : n < l.length) : l.getD n d = l[n] := by
  simp [List.getElem?_eq_getElem h]

theorem mem_enum_eq {α : Type} (d : α) {l : List α} {p : Nat × α}
    (h : p ∈ l.enum) : p.1 < l.length ∧ p.2 = l.getD p.1 d := by
  rw [List.mem_iff_getElem] at h
  obtain ⟨i, hi, hp⟩ := h
  have hlen : i < l.length := by simpa using hi
  rw [List.getElem_enum] at hp
  cases hp
  exact ⟨hlen, (getD_of_lt l d hlen).symm⟩

theorem getElem_pair_sublist {α : Type} {l : List α} {i j : Nat} (hij : i < j)
    (hj : j < l.length) : [l[i], l[j]] <+ l := by
  have hi : i < l.length := by omega
  have hti : i < (l.take (i + 1)).length := by
    rw [List.length_take]
    omega
  have hdj : j - (i + 1) < (l.drop (i + 1)).length := by
    rw [List.length_drop]
    omega
  have h1 : [l[i]] <+ l.take (i + 1) := by
    rw [List.singleton_sublist]
    have ht : (l.take (i + 1))[i] = l[i] := List.getElem_take l
    rw [← ht]
    exact List.getElem_mem _
  have h2 : [l[j]] <+ l.drop (i + 1) := by
    rw [List.singleton_sublist]
    have hd : (l.drop (i + 1))[j - (i + 1)] = l[j] := by
      rw [List.getElem_drop]
      congr 1
      omega
    rw [← hd]
    exact List.getElem_mem _
  have h3 := h1.append h2
  rwa [List.take_append_drop] at h3

theorem eq_of_pair_sublists {α : Type} {l : List α} {a b : α} (hnd : l.Nodup)
    (h1 : [a, b] <+ l) (h2 : [b, a] <+ l) : a = b := by
  induction l with
  | nil => cases h1
  | cons x t ih =>
    rw [List.nodup_cons] at hnd
    cases h1 with
    | cons _ h1t =>
      cases h2 with
      | cons _ h2t => exact ih hnd.2 h1t h2t
      | cons₂ _ h2t => exact absurd (h1t.subset (by simp)) hnd.1
    | cons₂ _ h1t =>
      cases h2 with
      | cons _ h2t => exact absurd (h2t.subset (by simp)) hnd.1
      | cons₂ _ h2t => rfl

theorem sortedSim_nodup (sims : List ℚ) :
    (sims.enum.mergeSort simGE).Nodup := by
  have h1 : (sims.enum.map Prod.fst).Nodup := by
    rw [List.enum_map_fst]
    exact List.nodup_range _
  exact ((List.mergeSort_perm sims.enum simGE).nodup_iff).mpr h1.of_map

theorem sortedSim_fst_nodup (sims : List ℚ) :
    ((sims.enum.mergeSort simGE).map Prod.fst).Nodup := by
  have hp : (sims.enum.mergeSort simGE).map Prod.fst ~
      sims.enum.map Prod.fst :=
    (List.mergeSort_perm sims.enum simGE).map _
  rw [hp.nodup_iff, List.enum_map_fst]
  exact List.nodup_range _

theorem enum_pair_sublist {sims : List ℚ} {a b : Nat × ℚ}
    (ha : a ∈ sims.enum) (hb : b ∈ sims.enum) (hba : b.1 < a.1) :
    [b, a] <+ sims.enum := by
  obtain ⟨ai, av⟩ := a
  obtain ⟨bi, bv⟩ := b
  obtain ⟨ha1, ha2⟩ := mem_enum_eq 0 ha
  obtain ⟨hb1, hb2⟩ := mem_enum_eq 0 hb
  simp only at ha1 ha2 hb1 hb2 hba
  have hlen : ai < sims.enum.length := by simpa using ha1
  have h := getElem_pair_sublist hba hlen
  rw [List.getElem_enum, List.getElem_enum] at h
  have hav : sims[ai] = av := by
    rw [← getD_of_lt sims 0 ha1, ← ha2]
  have hbv : sims[bi] = bv := by
    rw [← getD_of_lt sims 0 hb1, ← hb2]
  rwa [hav, hbv] at h

/-- The sorted `(index, similarity)` list inside `retrieve_relevant_chunks` is
pairwise ordered lexicographically: strictly larger similarity first, equal
similarities in ascending original-index order (by stability of the sort). -/
theorem sortedSim_pairwise_lex (sims : List ℚ) :
    (sims.enum.mergeSort simGE).Pairwise
      (fun a b => b.2 < a.2 ∨ (a.2 = b.2 ∧ a.1 < b.1)) := by
  rw [List.pairwise_iff_getElem]
  intro i j hi hj hij
  have hsorted := List.sorted_mergeSort simGE_trans simGE_total sims.enum
  rw [List.pairwise_iff_getElem] at hsorted
  have hle := hsorted i j hi hj hij
  have hle2 : (sims.enum.mergeSort simGE)[j].2 ≤
      (sims.enum.mergeSort simGE)[i].2 := by
    simpa [simGE] using hle
  rcases lt_or_eq_of_le hle2 with hlt | heq
  · exact Or.inl hlt
  · refine Or.inr ⟨heq.symm, ?_⟩
    have hfst : (sims.enum.mergeSort simGE)[i].1 ≠
        (sims.enum.mergeSort simGE)[j].1 := by
      intro hcontra
      have hnd := sortedSim_fst_nodup sims
      rw [List.nodup_iff_injective_getElem] at hnd
      have hmapi : ((sims.enum.mergeSort simGE).map Prod.fst).length =
          (sims.enum.mergeSort simGE).length := List.length_map _ _
      have hinj := @hnd ⟨i, by omega⟩ ⟨j, by omega⟩
      simp only [List.getElem_map] at hinj
      have := hinj hcontra
      have hij2 : i = j := by
        have := congrArg Fin.val this
        simpa using this
      omega
    by_contra hnot
    push_neg at hnot
    have hba : (sims.enum.mergeSort simGE)[j].1 <
        (sims.enum.mergeSort simGE)[i].1 :=
      lt_of_le_of_ne hnot (fun h => hfst h.symm)
    have hmi : (sims.enum.mergeSort simGE)[i] ∈ sims.enum :=
      List.mem_mergeSort.mp (List.getElem_mem _)
    have hmj : (sims.enum.mergeSort simGE)[j] ∈ sims.enum :=
      List.mem_mergeSort.mp (List.getElem_mem _)
    have hsub1 : [(sims.enum.mergeSort simGE)[j],
        (sims.enum.mergeSort simGE)[i]] <+ sims.enum :=
      enum_pair_sublist hmi hmj hba
    have hGE : simGE (sims.enum.mergeSort simGE)[j]
        (sims.enum.mergeSort simGE)[i] := by
      simp only [simGE, decide_eq_true_eq]
      exact heq.ge
    have hsub2 : [(sims.enum.mergeSort simGE)[j],
        (sims.enum.mergeSort simGE)[i]] <+ sims.enum.mergeSort simGE :=
      List.pair_sublist_mergeSort simGE_trans simGE_total hGE hsub1
    have hsub3 : [(sims.enum.mergeSort simGE)[i],
        (sims.enum.mergeSort simGE)[j]] <+ sims.enum.mergeSort simGE :=
      getElem_pair_sublist hij hj
    have heqel := eq_of_pair_sublists (sortedSim_nodup sims) hsub3 hsub2
    exact hfst (congrArg Prod.fst heqel)

theorem mem_sortedSim {sims : List ℚ} {p : Nat × ℚ}
    (h : p ∈ sims.enum.mergeSort simGE) :
    p.1 < sims.length ∧ p.2 = sims.getD p.1 0 :=
  mem_enum_eq 0 (List.mem_mergeSort.mp h)

/-- C3: `retrieve_relevant_chunks` returns exactly `min k n` pairs
(`n` = number of stored embeddings; `n = 0` gives the empty sequence, not an
error), each pair being the chunk and its similarity score at a retained
index; the retained indices are pairwise ordered by strictly descending score
with ties broken by ascending original index; all retained indices are in
range; and when `k ≥ n` the retained indices are a permutation of all `n`
indices. -/
theorem C3_retrieve_topk (query_embedding : List ℚ)
    (chunk_embeddings : List (List ℚ)) (chunks : List (List Char)) (k : Nat)
    (hk : 1 ≤ k) :
    ((retrieve_relevant_chunks query_embedding chunk_embeddings chunks k).1.length
        = min k chunk_embeddings.length) ∧
      ((retrieve_relevant_chunks query_embedding chunk_embeddings chunks k).1 =
        (retrieve_relevant_chunks query_embedding chunk_embeddings chunks k).2.map
          (fun i => (chunks.getD i [],
            (chunk_embeddings.map
              (fun e => dot_product query_embedding e)).getD i 0))) ∧
      ((retrieve_relevant_chunks query_embedding chunk_embeddings chunks k).2.Pairwise
        (fun s t =>
          (chunk_embeddings.map
              (fun e => dot_product query_embedding e)).getD t 0 <
              (chunk_embeddings.map
                (fun e => dot_product query_embedding e)).getD s 0 ∨
            ((chunk_embeddings.map
                (fun e => dot_product query_embedding e)).getD s 0 =
                (chunk_embeddings.map
                  (fun e => dot_product query_embedding e)).getD t 0 ∧
              s < t))) ∧
      (∀ t ∈ (retrieve_relevant_chunks query_embedding chunk_embeddings chunks k).2,
        t < chunk_embeddings.length) ∧
      (chunk_embeddings.length ≤ k →
        (retrieve_relevant_chunks query_embedding chunk_embeddings chunks k).2.Perm
          (List.range chunk_embeddings.length)) := by
  set sims := chunk_embeddings.map (fun e => dot_product query_embedding e)
    with hsims
  have hlen_sims : sims.length = chunk_embeddings.length := by
    rw [hsims, List.length_map]
  have hr : retrieve_relevant_chunks query_embedding chunk_embeddings chunks k =
      ((((sims.enum.mergeSort simGE).take k).map Prod.fst).map
          (fun i => (chunks.getD i [], sims.getD i 0)),
        ((sims.enum.mergeSort simGE).take k).map Prod.fst) := rfl
  rw [hr]
  have hmemS : ∀ p ∈ (sims.enum.mergeSort simGE).take k,
      p.1 < sims.length ∧ p.2 = sims.getD p.1 0 := by
    intro p hp
    exact mem_sortedSim (List.mem_of_mem_take hp)
  refine ⟨?_, rfl, ?_, ?_, ?_⟩
  · simp only [List.length_map, List.length_take, List.length_mergeSort,
      List.enum_length]
    rw [hlen_sims]
  · rw [List.pairwise_map]
    have base := (sortedSim_pairwise_lex sims).sublist
      (List.take_sublist k (sims.enum.mergeSort simGE))
    refine base.imp_of_mem ?_
    intro a b ha hb hab
    obtain ⟨ha1, ha2⟩ := hmemS a ha
    obtain ⟨hb1, hb2⟩ := hmemS b hb
    rw [← ha2, ← hb2]
    exact hab
  · intro t ht
    rw [List.mem_map] at ht
    obtain ⟨p, hp, rfl⟩ := ht
    rw [← hlen_sims]
    exact (hmemS p hp).1
  · intro hle
    have htake : (sims.enum.mergeSort simGE).take k =
        sims.enum.mergeSort simGE := by
      apply List.take_of_length_le
      simp only [List.length_mergeSort, List.enum_length]
      omega
    rw [htake]
    have hperm : (sims.enum.mergeSort simGE).map Prod.fst ~
        sims.enum.map Prod.fst :=
      (List.mergeSort_perm sims.enum simGE).map _
    rw [List.enum_map_fst, hlen_sims] at hperm
    exact hperm

/-- C3, instantiated at a two-chunk store with a tie: query `[1]`, embeddings
`[[2], [2]]` (equal scores 2 and 2), `k = 3 > n = 2`. -/
theorem C3_retrieve_topk_witness :
    ((retrieve_relevant_chunks [1] [[2], [2]] ["a".toList, "b".toList] 3).1.length
        = min 3 ([[(2 : ℚ)], [2]] : List (List ℚ)).length) ∧
      ((retrieve_relevant_chunks [1] [[2], [2]] ["a".toList, "b".toList] 3).1 =
        (retrieve_relevant_chunks [1] [[2], [2]] ["a".toList, "b".toList] 3).2.map
          (fun i => (["a".toList, "b".toList].getD i [],
            (([[(2 : ℚ)], [2]] : List (List ℚ)).map
              (fun e => dot_product [1] e)).getD i 0))) ∧
      ((retrieve_relevant_chunks [1] [[2], [2]] ["a".toList, "b".toList] 3).2.Pairwise
        (fun s t =>
          (([[(2 : ℚ)], [2]] : List (List ℚ)).map
              (fun e => dot_product [1] e)).getD t 0 <
              (([[(2 : ℚ)], [2]] : List (List ℚ)).map
                (fun e => dot_product [1] e)).getD s 0 ∨
            ((([[(2 : ℚ)], [2]] : List (List ℚ)).map
                (fun e => dot_product [1] e)).getD s 0 =
                (([[(2 : ℚ)], [2]] : List (List ℚ)).map
                  (fun e => dot_product [1] e)).getD t 0 ∧
              s < t))) ∧
      (∀ t ∈ (retrieve_relevant_chunks [1] [[2], [2]]
          ["a".toList, "b".toList] 3).2,
        t < ([[(2 : ℚ)], [2]] : List (List ℚ)).length) ∧
      (([[(2 : ℚ)], [2]] : List (List ℚ)).length ≤ 3 →
        (retrieve_relevant_chunks [1] [[2], [2]] ["a".toList, "b".toList] 3).2.Perm
          (List.range ([[(2 : ℚ)], [2]] : List (List ℚ)).length)) :=
  C3_retrieve_topk [1] [[2], [2]] ["a".toList, "b".toList] 3 (by omega)

theorem zip_truncates {α β : Type} :
    ∀ (l₁ : List α) (l₂ : List β),
      l₁.zip l₂ = (l₁.take l₂.length).zip (l₂.take l₁.length)
  | [], l₂ => by simp
  | x :: t₁, [] => by simp
  | x :: t₁, y :: t₂ => by
    simp only [List.zip_cons_cons, List.length_cons, List.take_succ_cons]
    congr 1
    exact zip_truncates t₁ t₂

/-- C6: the claim fails on the code: no `DimensionMismatchError` exists in the
source. A query of dimension 1 against stored embeddings of dimension 2 is
silently accepted — `zip` truncates the dot product and retrieval returns
normally. -/
theorem C6_counterexample :
    dot_product [2] [1, 0] = 2 ∧
      retrieve_relevant_chunks [2] [[1, 0], [0, 1]] ["a".toList, "b".toList] 1 =
        ([("a".toList, 2)], [0]) := by
  constructor
  · norm_num [dot_product]
  · have hs : ([[(1 : ℚ), 0], [0, 1]].map (fun e => dot_product [2] e)) =
        [2, 0] := by norm_num [dot_product]
    simp only [retrieve_relevant_chunks, hs]
    rw [show ([(2 : ℚ), 0].enum) = [(0, 2), (1, 0)] from rfl,
      List.mergeSort_of_sorted (by simp [List.pairwise_cons, simGE])]
    rfl

/-- C6 (amended): a query vector whose length disagrees with the stored
dimensionality is *not* rejected — `dot_product` silently truncates both
vectors to the common prefix (Python `zip` semantics), the query completes
normally with `min k n` results, and, retrieval being a pure read, the store
is unchanged. -/
theorem C6_no_dimension_check (query_embedding v : List ℚ)
    (chunk_embeddings : List (List ℚ)) (chunks : List (List Char)) (k : Nat)
    (hmismatch : query_embedding.length ≠ v.length) :
    dot_product query_embedding v =
        dot_product (query_embedding.take v.length)
          (v.take query_embedding.length) ∧
      ((retrieve_relevant_chunks query_embedding chunk_embeddings chunks k).1.length
        = min k chunk_embeddings.length) := by
  constructor
  · unfold dot_product
    rw [zip_truncates query_embedding v]
  · have hr : retrieve_relevant_chunks query_embedding chunk_embeddings chunks k =
        (((((chunk_embeddings.map
              (fun e => dot_product query_embedding e)).enum.mergeSort
                simGE).take k).map Prod.fst).map
            (fun i => (chunks.getD i [],
              (chunk_embeddings.map
                (fun e => dot_product query_embedding e)).getD i 0)),
          ((((chunk_embeddings.map
              (fun e => dot_product query_embedding e)).enum.mergeSort
                simGE).take k).map Prod.fst)) := rfl
    rw [hr]
    simp [List.length_take]

/-- C6 amended, instantiated: query `[2]` of dimension 1 against stored
dimension 2. -/
theorem C6_no_dimension_check_witness :
    dot_product [2] [1, 0] =
        dot_product (([(2 : ℚ)]).take ([(1 : ℚ), 0]).length)
          (([(1 : ℚ), 0]).take ([(2 : ℚ)]).length) ∧
      ((retrieve_relevant_chunks [2] [[1, 0], [0, 1]]
          ["a".toList, "b".toList] 1).1.length
        = min 1 ([[(1 : ℚ), 0], [0, 1]] : List (List ℚ)).length) :=
  C6_no_dimension_check [2] [1, 0] [[1, 0], [0, 1]]
    ["a".toList, "b".toList] 1 (by decide)

